import Mathlib

/-!
# Verification of the bintech-crm lead/contact dedup-merge and query core

Shallow embedding of the lead service (`services/leadService.js`, given as
`src/unnamed/part_005`), the lead mongoose model (`src/unnamed/part_009`),
and the shared constants (`src/unnamed/part_001`).  The record store is a
list of documents; cache is an association list; JS numbers that the code
only ever treats as non-negative integers (amount, probability, page,
limit, timestamps) are `Nat`.  The contact service (`src/unnamed/part_007`)
is line-for-line the lead service minus the probability logic, so claims
citing both are settled on the lead embedding.
-/

set_option autoImplicit false

namespace BintechCrm

/-- A lead document, carrying the fields of `leadSchema` (part_009) that the
verified claims mention.  `notes` is modelled as free text, which is how the
service layer manipulates it.  `id` stands for the Mongo `_id`. -/
structure Lead where
  id : Nat
  email : String
  phone : String
  name : String
  company : String
  stage : String
  amount : Nat
  probability : Nat
  tags : List String
  customFields : List (String × String)
  notes : String
  assignedTo : String
  createdAt : Nat
  deriving Repr, DecidableEq

/-- The record store: the collection of lead documents. -/
abbrev Store := List Lead

/-- `Model.findById(id)`: first document with the given `_id`. -/
def findById (s : Store) (i : Nat) : Option Lead :=
  s.find? (fun l => l.id == i)

/-- `doc.save()` on an existing document / `findByIdAndUpdate`: replace the
document whose `_id` matches. -/
def updateById (s : Store) (i : Nat) (l' : Lead) : Store :=
  s.map (fun l => if l.id == i then l' else l)

/-- `Model.deleteMany({_id: {$in: ids}})`. -/
def deleteMany (s : Store) (ids : List Nat) : Store :=
  s.filter (fun l => !(ids.contains l.id))

/-- Error kinds surfaced by the embedded operations: `AppError(404)`,
`AppError(409)`, mongoose validation failure, and a thrown JS `TypeError`. -/
inductive CrmError
  | notFound
  | conflict
  | validation
  | typeError
  deriving Repr, DecidableEq

/-- The `stage → probability` table inside `LeadService.calculateProbability`
(part_005 lines 244-256).  Its keys are the values of `LEAD_STAGES` from
`utils/constants` (part_001 lines 30-38), which are lowercase strings. -/
def serviceStageProb : String → Option Nat
  | "new" => some 20
  | "contacted" => some 40
  | "qualified" => some 60
  | "proposal" => some 80
  | "negotiation" => some 90
  | "won" => some 100
  | "lost" => some 0
  | _ => none

/-- `LeadService.calculateProbability(stage)`: `probabilities[stage] || 20` —
a missing key or a falsy (zero) value falls back to 20. -/
def calculateProbability (stage : String) : Nat :=
  match serviceStageProb stage with
  | some v => if v = 0 then 20 else v
  | none => 20

/-- The `stage → probability` table inside `leadSchema.pre('save')`
(part_009 lines 162-175); its keys are the capitalized stage enum values. -/
def schemaStageProb : String → Option Nat
  | "New" => some 10
  | "Contacted" => some 30
  | "Qualified" => some 50
  | "Proposal" => some 70
  | "Negotiation" => some 90
  | "Won" => some 100
  | "Lost" => some 0
  | _ => none

/-- The pre-save middleware:
`this.probability = stageProbabilities[this.stage] || this.probability`.
A missing key or a zero table value (falsy) keeps the current probability. -/
def preSaveHook (l : Lead) : Lead :=
  { l with probability :=
      match schemaStageProb l.stage with
      | some v => if v = 0 then l.probability else v
      | none => l.probability }

/-- The `stage` enum of `leadSchema` (part_009 lines 50-59). -/
def stageEnum : List String :=
  ["New", "Contacted", "Qualified", "Proposal", "Negotiation", "Won", "Lost"]

/-- Mongoose schema validation, restricted to the constraints on the fields
this development reasons about: `stage` must be in the enum and
`probability` must satisfy `min: 0, max: 100` (`min` is automatic for `Nat`).
The schema's remaining constraints (required free-text fields, email/phone
formats) concern fields no claim depends on and are not modelled. -/
def validateLead (l : Lead) : Bool :=
  stageEnum.contains l.stage && decide (l.probability ≤ 100)

/-- Every stored document passes (the modelled part of) schema validation;
this holds of every store reachable through the service's own write paths. -/
abbrev WellFormedStore (s : Store) : Prop :=
  s.all validateLead = true

/-- `document.save()` for a document built by the service: run the pre-save
middleware, validate, then insert (fresh `_id`) or replace (existing `_id`). -/
def saveLead (s : Store) (l : Lead) : Except CrmError (Lead × Store) :=
  let l' := preSaveHook l
  if validateLead l' then
    .ok (l', if (findById s l'.id).isSome then updateById s l'.id l' else s ++ [l'])
  else .error .validation

/-- Payload of a create call (`leadData`); `probability := none` models an
absent or zero (falsy) probability, matching `if (!leadData.probability)`. -/
structure LeadInput where
  email : String
  phone : String
  name : String
  company : String
  stage : String
  amount : Nat
  probability : Option Nat
  tags : List String
  customFields : List (String × String)
  notes : String
  assignedTo : String
  deriving Repr, DecidableEq

/-- Build the new document from the create payload. -/
def leadOfInput (newId : Nat) (d : LeadInput) (prob : Nat) (now : Nat) : Lead :=
  { id := newId, email := d.email, phone := d.phone, name := d.name,
    company := d.company, stage := d.stage, amount := d.amount,
    probability := prob, tags := d.tags, customFields := d.customFields,
    notes := d.notes, assignedTo := d.assignedTo, createdAt := now }

/-- `LeadService.createLead` (part_005 lines 16-47): reject if any stored
lead shares the email or the phone; otherwise derive the probability when the
caller supplied none (or zero, which is falsy), build the document and save
it (which runs the pre-save middleware). -/
def createLead (s : Store) (newId : Nat) (d : LeadInput) (now : Nat) :
    Except CrmError (Lead × Store) :=
  if s.any (fun l => l.email == d.email || l.phone == d.phone) then
    .error .conflict
  else
    let prob := match d.probability with
      | some p => if p = 0 then calculateProbability d.stage else p
      | none => calculateProbability d.stage
    saveLead s (leadOfInput newId d prob now)

/-- Sparse `$set` payload of `LeadService.updateLead`. -/
structure LeadUpdate where
  email : Option String := none
  phone : Option String := none
  stage : Option String := none
  probability : Option Nat := none
  amount : Option Nat := none
  deriving Repr, DecidableEq

/-- Apply a `$set` patch to a document. -/
def applyUpdate (l : Lead) (u : LeadUpdate) (prob : Option Nat) : Lead :=
  { l with
    email := u.email.getD l.email,
    phone := u.phone.getD l.phone,
    stage := u.stage.getD l.stage,
    amount := u.amount.getD l.amount,
    probability := prob.getD l.probability }

/-- `LeadService.updateLead` (part_005 lines 168-212): duplicate check on a
supplied email/phone against every other document; when the patch changes the
stage and carries no (truthy) probability, derive it via
`calculateProbability`; then `findByIdAndUpdate` with `runValidators` — note
that `findByIdAndUpdate` does not run the `pre('save')` middleware. -/
def updateLead (s : Store) (i : Nat) (u : LeadUpdate) :
    Except CrmError (Lead × Store) :=
  let emailHit := fun (l : Lead) => match u.email with
    | some e => l.email == e
    | none => false
  let phoneHit := fun (l : Lead) => match u.phone with
    | some ph => l.phone == ph
    | none => false
  if (u.email.isSome || u.phone.isSome) &&
      s.any (fun l => l.id != i && (emailHit l || phoneHit l)) then
    .error .conflict
  else
    let prob : Option Nat := match u.stage with
      | some st => match u.probability with
        | some p => if p = 0 then some (calculateProbability st) else some p
        | none => some (calculateProbability st)
      | none => u.probability
    match findById s i with
    | none => .error .notFound
    | some l =>
        let l' := applyUpdate l u prob
        if validateLead l' then .ok (l', updateById s i l')
        else .error .validation

/-- `[...new Set(list)]`: deduplicate, keeping the first occurrence of each
element in order — JS `Set` iterates in insertion order. -/
def jsSetDedup : List String → List String
  | [] => []
  | x :: xs => x :: jsSetDedup (xs.filter (fun y => y != x))
termination_by l => l.length
decreasing_by
  simp only [List.length_cons]
  exact Nat.lt_succ_of_le (List.length_filter_le _ _)

/-- One iteration of the `duplicates.forEach` body in
`LeadService.mergeDuplicates` (part_005 lines 343-369), folding one resolving
duplicate into the in-memory primary.  Each field is written once from the
pre-iteration primary: amount and probability keep the strictly larger
value, tags become the deduplicated concatenation, `customFields` is the JS
spread `{...duplicate.customFields, ...primary.customFields}` (primary's
entries win), and a non-empty duplicate note is appended after `"\n---\n"`. -/
def mergeStep (p d : Lead) : Lead :=
  { p with
    amount := if d.amount > p.amount then d.amount else p.amount,
    probability := if d.probability > p.probability then d.probability else p.probability,
    tags := jsSetDedup (p.tags ++ d.tags),
    customFields :=
      p.customFields ++
        d.customFields.filter (fun kv => (List.lookup kv.1 p.customFields).isNone),
    notes :=
      if d.notes ≠ "" then
        (if p.notes ≠ "" then p.notes ++ "\n---\n" ++ d.notes else d.notes)
      else p.notes }

/-- The whole `duplicates.forEach` fold. -/
def foldDuplicates (p : Lead) (ds : List Lead) : Lead :=
  ds.foldl mergeStep p

/-- The documents the `duplicateIds.map(id => Lead.findById(id))` lookups
resolve to, in input order; `null` results are the entries the fold skips
(`if (!duplicate) return`). -/
def resolvedDups (s : Store) (ids : List Nat) : List Lead :=
  ids.filterMap (findById s)

/-- `LeadService.mergeDuplicates(primaryId, duplicateIds)` (part_005 lines
331-389).  All `findById` reads happen first; a missing primary throws the
404 `AppError` before any write, so the store is untouched on that error.
Otherwise the duplicates are folded into the primary, `primary.save()` runs
(pre-save middleware, then validation, then the in-place update keyed by the
primary's unchanged `_id`), and finally
`deleteMany({_id: {$in: duplicateIds}})` removes every listed id. -/
def mergeDuplicates (s : Store) (primaryId : Nat) (duplicateIds : List Nat) :
    Except CrmError (Lead × Store) :=
  match findById s primaryId with
  | none => .error .notFound
  | some p =>
      let merged := foldDuplicates p (resolvedDups s duplicateIds)
      let saved := preSaveHook merged
      if validateLead saved then
        .ok (saved, deleteMany (updateById s primaryId saved) duplicateIds)
      else .error .validation

/-- `leadSchema.statics.findDuplicates(lead)` (part_009 lines 177-191): all
stored records whose email or phone equals the candidate's, or whose name and
company both equal the candidate's.  The candidate is an `Option` because the
service invokes the static with no argument: JS then binds `lead` to
`undefined`, and `lead.email` throws a `TypeError` before any query runs. -/
def leadModelFindDuplicates (s : Store) (candidate : Option Lead) :
    Except CrmError (List Lead) :=
  match candidate with
  | none => .error .typeError
  | some c =>
      .ok (s.filter (fun l =>
        l.email == c.email || l.phone == c.phone ||
          (l.name == c.name && l.company == c.company)))

/-- `LeadService.findDuplicates()` (part_005 lines 316-323): the service-level
fleet-wide discovery call — it invokes `Lead.findDuplicates()` passing no
candidate. -/
def leadServiceFindDuplicates (s : Store) : Except CrmError (List Lead) :=
  leadModelFindDuplicates s none

/-- Does `needle` occur as a contiguous run at the head of `hay`? -/
def charsStartWith : List Char → List Char → Bool
  | _, [] => true
  | [], _ :: _ => false
  | h :: hs, n :: ns => h == n && charsStartWith hs ns

/-- Does `needle` occur as a contiguous run anywhere in `hay`? -/
def charsContain (hay needle : List Char) : Bool :=
  match hay with
  | [] => needle.isEmpty
  | _ :: t => charsStartWith hay needle || charsContain t needle

/-- `new RegExp(text, 'i')` applied to a field, for a plain-text pattern:
case-insensitive substring match. -/
def containsCI (hay needle : String) : Bool :=
  charsContain hay.toLower.data needle.toLower.data

/-- The query-string parameters `LeadService.getLeads` reads (part_005 lines
84-135).  Numeric parameters arrive already parsed; `none` stands for an
absent (or unparseable, hence falsy) parameter. -/
structure LeadQuery where
  page : Option Nat := none
  limit : Option Nat := none
  stage : Option String := none
  assignedTo : Option String := none
  minAmount : Option Nat := none
  maxAmount : Option Nat := none
  probability : Option Nat := none
  search : Option String := none
  startDate : Option Nat := none
  endDate : Option Nat := none
  sort : Option String := none
  order : Option String := none
  deriving Repr, DecidableEq

/-- `parseInt(query.page) || PAGINATION.DEFAULT_PAGE` — `0` is falsy, so it
also falls back to the default 1. -/
def effPage (q : LeadQuery) : Nat :=
  match q.page with
  | some n => if n = 0 then 1 else n
  | none => 1

/-- `parseInt(query.limit) || PAGINATION.DEFAULT_LIMIT` — `0` is falsy, so it
also falls back to the default 10.  No other bound is applied. -/
def effLimit (q : LeadQuery) : Nat :=
  match q.limit with
  | some n => if n = 0 then 10 else n
  | none => 10

/-- The conjunction of filter clauses `getLeads` attaches to the query
builder: stage/assignedTo equality, amount range, probability floor, the
date range (applied only when both endpoints are given), and the `$or`
free-text search over name/email/company. -/
def matchesFilter (q : LeadQuery) (l : Lead) : Bool :=
  (match q.stage with | some v => l.stage == v | none => true) &&
  (match q.assignedTo with | some v => l.assignedTo == v | none => true) &&
  (match q.minAmount with | some v => decide (v ≤ l.amount) | none => true) &&
  (match q.maxAmount with | some v => decide (l.amount ≤ v) | none => true) &&
  (match q.probability with | some v => decide (v ≤ l.probability) | none => true) &&
  (match q.startDate, q.endDate with
   | some a, some b => decide (a ≤ l.createdAt) && decide (l.createdAt ≤ b)
   | _, _ => true) &&
  (match q.search with
   | some v => containsCI l.name v || containsCI l.email v || containsCI l.company v
   | none => true)

/-- Comparator for `queryBuilder.sort({[sortField]: sortOrder})`, covering the
schema's sortable fields; the default sort field is `createdAt` and the
default direction is descending (`order === 'asc'` is the only ascending
case). -/
def leadLe (field : String) (asc : Bool) (a b : Lead) : Bool :=
  let natLe := fun (x y : Nat) => if asc then decide (x ≤ y) else decide (y ≤ x)
  let strLe := fun (x y : String) => if asc then decide (x ≤ y) else decide (y ≤ x)
  match field with
  | "amount" => natLe a.amount b.amount
  | "probability" => natLe a.probability b.probability
  | "name" => strLe a.name b.name
  | "email" => strLe a.email b.email
  | "company" => strLe a.company b.company
  | "stage" => strLe a.stage b.stage
  | _ => natLe a.createdAt b.createdAt

/-- Insert into a sorted list, keeping earlier elements on ties. -/
def insertLead (le : Lead → Lead → Bool) (x : Lead) : List Lead → List Lead
  | [] => [x]
  | y :: ys => if le x y then x :: y :: ys else y :: insertLead le x ys

/-- The store's sort, modelled as a stable insertion sort under the field
comparator (which particular stable order the database returns is opaque to
the service; only the multiset of results is observable through paging). -/
def sortLeads (le : Lead → Lead → Bool) : List Lead → List Lead
  | [] => []
  | x :: xs => insertLead le x (sortLeads le xs)

/-- The payload `getLeads` assembles and caches (part_005 lines 144-150). -/
structure LeadsPage where
  leads : List Lead
  page : Nat
  limit : Nat
  total : Nat
  totalPages : Nat
  deriving Repr, DecidableEq

/-- The cache-miss computation of `LeadService.getLeads` (part_005 lines
98-150): filter, sort, `skip((page-1)*limit).limit(limit)`, count the same
filter ignoring paging, and `totalPages = Math.ceil(total / limit)` (on
naturals with `limit ≥ 1`, `(total + limit - 1) / limit`). -/
def buildLeadsResult (s : Store) (q : LeadQuery) : LeadsPage :=
  let page := effPage q
  let limit := effLimit q
  let skip := (page - 1) * limit
  let matching := s.filter (matchesFilter q)
  let sorted := sortLeads (leadLe (q.sort.getD "createdAt") (q.order == some "asc")) matching
  let total := matching.length
  { leads := (sorted.drop skip).take limit,
    page := page, limit := limit, total := total,
    totalPages := (total + limit - 1) / limit }

/-- The cache: a key/value association list (`get` is first-entry lookup,
`set` prepends). -/
abbrev Cache := List (String × LeadsPage)

/-- The cache key `getLeads` computes (part_005 line 90):
`` `${CACHE_KEYS.LEADS_LIST}:${page}:${limit}` `` with
`CACHE_KEYS.LEADS_LIST = 'leads:list'` (part_001 line 66).  No filter or
sort parameter enters the key. -/
def leadsCacheKey (q : LeadQuery) : String :=
  "leads:list" ++ ":" ++ toString (effPage q) ++ ":" ++ toString (effLimit q)

/-- `LeadService.getLeads` end to end (part_005 lines 84-155): on a cache hit
return the cached payload verbatim; on a miss compute the page and cache it
under the key. -/
def getLeads (s : Store) (c : Cache) (q : LeadQuery) : LeadsPage × Cache :=
  match c.lookup (leadsCacheKey q) with
  | some r => (r, c)
  | none =>
      let r := buildLeadsResult s q
      (r, (leadsCacheKey q, r) :: c)

/-- The saved (hook-applied) folded primary of a merge. -/
def mergedPrimary (s : Store) (p : Lead) (duplicateIds : List Nat) : Lead :=
  preSaveHook (foldDuplicates p (resolvedDups s duplicateIds))

/-! ## Concrete fixtures -/

/-- A schema-valid lead with every field at its neutral value. -/
def baseLead : Lead :=
  { id := 0, email := "", phone := "", name := "", company := "", stage := "New",
    amount := 0, probability := 0, tags := [], customFields := [], notes := "",
    assignedTo := "", createdAt := 0 }

def wonLead : Lead :=
  { baseLead with id := 1, email := "w@x", phone := "1", stage := "Won", probability := 100 }

def lostLead : Lead :=
  { baseLead with id := 2, email := "l@x", phone := "2", stage := "Lost", probability := 0 }

def c1Store : Store := [wonLead, lostLead]

def soloLead : Lead := { baseLead with id := 1, email := "a@x", phone := "1" }

def otherLead : Lead := { baseLead with id := 2, email := "b@x", phone := "2" }

def pairStore : Store := [soloLead, otherLead]

def c6Input : LeadInput :=
  { email := "a@x.com", phone := "+1555", name := "Jo", company := "Acme",
    stage := "New", amount := 0, probability := none, tags := [],
    customFields := [], notes := "", assignedTo := "" }

def c3Primary : Lead := { soloLead with amount := 50, probability := 50 }

def c3Dup : Lead := { otherLead with amount := 80, probability := 80 }

def c3Store : Store := [c3Primary, c3Dup]

def cfPrimary : Lead := { soloLead with customFields := [("a", "1")] }

def cfDup1 : Lead := { otherLead with customFields := [("a", "2"), ("b", "3")] }

def cfDup2 : Lead :=
  { baseLead with id := 3, email := "c@x", phone := "3", customFields := [("b", "9")] }

def c4Store : Store := [cfPrimary, cfDup1, cfDup2]

def tagPrimary : Lead := { soloLead with tags := ["x", "y"] }

def tagDup : Lead := { otherLead with tags := ["y", "z"] }

def tagStore : Store := [tagPrimary, tagDup]

def dupTagLead : Lead := { soloLead with tags := ["x", "x"] }

/-- A store lead with index-derived identity, for bulk fixtures. -/
def mkStoreLead (i : Nat) : Lead :=
  { baseLead with
    id := i, email := toString i ++ "@x", phone := toString i, createdAt := i }

def store25 : Store := (List.range 25).map mkStoreLead

def store120 : Store := (List.range 120).map mkStoreLead

/-! ## Supporting lemmas -/

theorem mem_jsSetDedup {a : String} : ∀ {l : List String}, a ∈ jsSetDedup l ↔ a ∈ l := by
  intro l
  induction l using jsSetDedup.induct with
  | case1 => simp [jsSetDedup]
  | case2 x xs ih =>
      rw [jsSetDedup]
      by_cases hax : a = x
      · subst hax; simp
      · simp only [List.mem_cons, ih, List.mem_filter]
        constructor
        · rintro (h | ⟨h, _⟩)
          · exact absurd h hax
          · exact Or.inr h
        · rintro (h | h)
          · exact absurd h hax
          · exact Or.inr ⟨h, by simp [bne_iff_ne, hax]⟩

theorem nodup_jsSetDedup : ∀ (l : List String), (jsSetDedup l).Nodup := by
  intro l
  induction l using jsSetDedup.induct with
  | case1 => simp [jsSetDedup]
  | case2 x xs ih =>
      rw [jsSetDedup]
      refine List.nodup_cons.mpr ⟨fun hmem => ?_, ih⟩
      have := (mem_jsSetDedup).mp hmem
      simp [List.mem_filter, bne_iff_ne] at this

theorem mergeStep_id (p d : Lead) : (mergeStep p d).id = p.id := rfl

theorem mergeStep_stage (p d : Lead) : (mergeStep p d).stage = p.stage := rfl

theorem mergeStep_amount (p d : Lead) :
    (mergeStep p d).amount = max p.amount d.amount := by
  show (if d.amount > p.amount then d.amount else p.amount) = max p.amount d.amount
  split <;> omega

theorem mergeStep_probability (p d : Lead) :
    (mergeStep p d).probability = max p.probability d.probability := by
  show (if d.probability > p.probability then d.probability else p.probability)
      = max p.probability d.probability
  split <;> omega

theorem mergeStep_tags (p d : Lead) :
    (mergeStep p d).tags = jsSetDedup (p.tags ++ d.tags) := rfl

theorem mergeStep_customFields (p d : Lead) :
    (mergeStep p d).customFields =
      p.customFields ++
        d.customFields.filter (fun kv => (List.lookup kv.1 p.customFields).isNone) := rfl

theorem foldDuplicates_id (p : Lead) (ds : List Lead) :
    (foldDuplicates p ds).id = p.id := by
  induction ds generalizing p with
  | nil => rfl
  | cons d ds ih => simpa [foldDuplicates, mergeStep_id] using ih (mergeStep p d)

theorem foldDuplicates_stage (p : Lead) (ds : List Lead) :
    (foldDuplicates p ds).stage = p.stage := by
  induction ds generalizing p with
  | nil => rfl
  | cons d ds ih => simpa [foldDuplicates, mergeStep_stage] using ih (mergeStep p d)

theorem foldDuplicates_amount (p : Lead) (ds : List Lead) :
    (foldDuplicates p ds).amount =
      (ds.map Lead.amount).foldl max p.amount := by
  induction ds generalizing p with
  | nil => rfl
  | cons d ds ih =>
      simp only [foldDuplicates, List.foldl_cons, List.map_cons]
      rw [show List.foldl mergeStep (mergeStep p d) ds = foldDuplicates (mergeStep p d) ds from rfl,
        ih (mergeStep p d), mergeStep_amount]

theorem foldDuplicates_probability (p : Lead) (ds : List Lead) :
    (foldDuplicates p ds).probability =
      (ds.map Lead.probability).foldl max p.probability := by
  induction ds generalizing p with
  | nil => rfl
  | cons d ds ih =>
      simp only [foldDuplicates, List.foldl_cons, List.map_cons]
      rw [show List.foldl mergeStep (mergeStep p d) ds = foldDuplicates (mergeStep p d) ds from rfl,
        ih (mergeStep p d), mergeStep_probability]

theorem mem_tags_foldDuplicates (t : String) (p : Lead) (ds : List Lead) :
    t ∈ (foldDuplicates p ds).tags ↔ t ∈ p.tags ∨ ∃ d ∈ ds, t ∈ d.tags := by
  induction ds generalizing p with
  | nil => simp [foldDuplicates]
  | cons d ds ih =>
      have hstep : foldDuplicates p (d :: ds) = foldDuplicates (mergeStep p d) ds := rfl
      rw [hstep, ih (mergeStep p d), mergeStep_tags]
      simp only [mem_jsSetDedup, List.mem_append, List.mem_cons]
      constructor
      · rintro ((h | h) | ⟨x, hx, ht⟩)
        · exact Or.inl h
        · exact Or.inr ⟨d, Or.inl rfl, h⟩
        · exact Or.inr ⟨x, Or.inr hx, ht⟩
      · rintro (h | ⟨x, (rfl | hx), ht⟩)
        · exact Or.inl (Or.inl h)
        · exact Or.inl (Or.inr ht)
        · exact Or.inr ⟨x, hx, ht⟩

theorem nodup_tags_foldDuplicates {p : Lead} (hp : p.tags.Nodup) (ds : List Lead) :
    (foldDuplicates p ds).tags.Nodup := by
  induction ds generalizing p with
  | nil => exact hp
  | cons d ds ih =>
      have : foldDuplicates p (d :: ds) = foldDuplicates (mergeStep p d) ds := rfl
      rw [this]
      exact ih (by rw [mergeStep_tags]; exact nodup_jsSetDedup _)

theorem nodup_tags_foldDuplicates_cons (p d : Lead) (ds : List Lead) :
    (foldDuplicates p (d :: ds)).tags.Nodup := by
  have : foldDuplicates p (d :: ds) = foldDuplicates (mergeStep p d) ds := rfl
  rw [this]
  exact nodup_tags_foldDuplicates (by rw [mergeStep_tags]; exact nodup_jsSetDedup _) ds

theorem lookup_append (k : String) (l₁ l₂ : List (String × String)) :
    List.lookup k (l₁ ++ l₂) =
      (List.lookup k l₁).orElse (fun _ => List.lookup k l₂) := by
  induction l₁ with
  | nil => simp [List.lookup]
  | cons kv l₁ ih =>
      rcases kv with ⟨a, b⟩
      by_cases hka : k = a
      · subst hka; simp [List.lookup]
      · have hbeq : (k == a) = false := by simp [hka]
        simp [List.lookup, hbeq, ih]

theorem lookup_filter_key (k : String) (l : List (String × String))
    (P : String × String → Bool) (hP : ∀ kv ∈ l, kv.1 = k → P kv = true) :
    List.lookup k (l.filter P) = List.lookup k l := by
  induction l with
  | nil => simp
  | cons kv l ih =>
      rcases kv with ⟨a, b⟩
      by_cases hka : k = a
      · subst hka
        have : P (k, b) = true := hP (k, b) (List.mem_cons_self _ _) rfl
        simp [List.filter_cons, this, List.lookup]
      · have hbeq : (k == a) = false := by simp [hka]
        have ih' := ih (fun kv hkv hk => hP kv (List.mem_cons_of_mem _ hkv) hk)
        rcases hPa : P (a, b) with _ | _
        · simp [List.filter_cons, hPa, ih', List.lookup, hbeq]
        · simp [List.filter_cons, hPa, List.lookup, hbeq, ih']

theorem lookup_mergeStep_customFields (k : String) (p d : Lead) :
    List.lookup k (mergeStep p d).customFields =
      (List.lookup k p.customFields).orElse (fun _ => List.lookup k d.customFields) := by
  rw [mergeStep_customFields, lookup_append]
  rcases hk : List.lookup k p.customFields with _ | v
  · simp only [Option.orElse, Option.none_orElse]
    exact lookup_filter_key k d.customFields _ (fun kv _ hkv => by simp [hkv, hk])
  · simp [Option.orElse]

theorem lookup_foldDuplicates_customFields (k : String) (p : Lead) (ds : List Lead) :
    List.lookup k (foldDuplicates p ds).customFields =
      (List.lookup k p.customFields).orElse
        (fun _ => ds.findSome? (fun d => List.lookup k d.customFields)) := by
  induction ds generalizing p with
  | nil => simp [foldDuplicates]
  | cons d ds ih =>
      have hstep : foldDuplicates p (d :: ds) = foldDuplicates (mergeStep p d) ds := rfl
      rw [hstep, ih (mergeStep p d), lookup_mergeStep_customFields, List.findSome?_cons]
      rcases List.lookup k p.customFields with _ | v
      · rcases List.lookup k d.customFields with _ | w <;> simp [Option.orElse]
      · simp [Option.orElse]

theorem findById_id {s : Store} {i : Nat} {l : Lead} (h : findById s i = some l) :
    l.id = i := by
  have := List.find?_some h
  simpa using this

theorem mem_of_findById {s : Store} {i : Nat} {l : Lead} (h : findById s i = some l) :
    l ∈ s :=
  List.mem_of_find?_eq_some h

theorem mem_of_resolvedDups {s : Store} {ids : List Nat} {d : Lead}
    (h : d ∈ resolvedDups s ids) : d ∈ s := by
  rcases List.mem_filterMap.mp h with ⟨i, _, hfind⟩
  exact mem_of_findById hfind

theorem validateLead_of_wf {s : Store} {l : Lead} (hwf : WellFormedStore s)
    (hl : l ∈ s) : validateLead l = true := by
  have := (List.all_eq_true.mp hwf) l hl
  simpa using this

theorem probability_le_of_validate {l : Lead} (h : validateLead l = true) :
    l.probability ≤ 100 := by
  simp only [validateLead, Bool.and_eq_true, decide_eq_true_eq] at h
  exact h.2

theorem stage_mem_of_validate {l : Lead} (h : validateLead l = true) :
    l.stage ∈ stageEnum := by
  simp only [validateLead, Bool.and_eq_true, List.contains_eq_any_beq,
    List.any_eq_true, beq_iff_eq] at h
  rcases h.1 with ⟨x, hx, rfl⟩
  exact hx

theorem schemaStageProb_le {st : String} {v : Nat} (h : schemaStageProb st = some v) :
    v ≤ 100 := by
  unfold schemaStageProb at h
  split at h <;> simp_all <;> omega

theorem preSaveHook_probability_le {l : Lead} (h : l.probability ≤ 100) :
    (preSaveHook l).probability ≤ 100 := by
  show (match schemaStageProb l.stage with
    | some v => if v = 0 then l.probability else v
    | none => l.probability) ≤ 100
  rcases hs : schemaStageProb l.stage with _ | v
  · exact h
  · by_cases hv : v = 0
    · simp [hv, h]
    · simpa [hv] using schemaStageProb_le hs

theorem preSaveHook_id (l : Lead) : (preSaveHook l).id = l.id := rfl

theorem preSaveHook_stage (l : Lead) : (preSaveHook l).stage = l.stage := rfl

theorem preSaveHook_amount (l : Lead) : (preSaveHook l).amount = l.amount := rfl

theorem preSaveHook_tags (l : Lead) : (preSaveHook l).tags = l.tags := rfl

theorem preSaveHook_customFields (l : Lead) :
    (preSaveHook l).customFields = l.customFields := rfl

theorem preSaveHook_probability (l : Lead) :
    (preSaveHook l).probability =
      match schemaStageProb l.stage with
      | some v => if v = 0 then l.probability else v
      | none => l.probability := rfl

theorem foldl_max_le {l : List Nat} {a c : Nat} (ha : a ≤ c)
    (hl : ∀ x ∈ l, x ≤ c) : l.foldl max a ≤ c := by
  induction l generalizing a with
  | nil => exact ha
  | cons x xs ih =>
      exact ih (max_le ha (hl x (List.mem_cons_self _ _)))
        (fun y hy => hl y (List.mem_cons_of_mem _ hy))

/-- On a well-formed store, the folded primary passes validation, so a merge
whose primary resolves always takes the success path. -/
theorem validate_mergedPrimary {s : Store} {p : Lead} (duplicateIds : List Nat)
    (hwf : WellFormedStore s) (hp : p ∈ s) :
    validateLead (mergedPrimary s p duplicateIds) = true := by
  have hpv := validateLead_of_wf hwf hp
  have hstage : (mergedPrimary s p duplicateIds).stage = p.stage := by
    rw [mergedPrimary, preSaveHook_stage, foldDuplicates_stage]
  have hprob : (mergedPrimary s p duplicateIds).probability ≤ 100 := by
    refine preSaveHook_probability_le ?_
    rw [foldDuplicates_probability]
    refine foldl_max_le (probability_le_of_validate hpv) ?_
    intro x hx
    rcases List.mem_map.mp hx with ⟨d, hd, rfl⟩
    exact probability_le_of_validate
      (validateLead_of_wf hwf (mem_of_resolvedDups hd))
  unfold validateLead
  rw [hstage, Bool.and_eq_true]
  have h1 := (Bool.and_eq_true _ _).mp (validateLead_of_wf hwf hp)
  exact ⟨h1.1, by simpa using hprob⟩

theorem mergeDuplicates_ok {s : Store} {primaryId : Nat} {p : Lead}
    (duplicateIds : List Nat) (hwf : WellFormedStore s)
    (hp : findById s primaryId = some p) :
    mergeDuplicates s primaryId duplicateIds =
      .ok (mergedPrimary s p duplicateIds,
        deleteMany (updateById s primaryId (mergedPrimary s p duplicateIds))
          duplicateIds) := by
  have hv := validate_mergedPrimary duplicateIds hwf (mem_of_findById hp)
  rw [mergedPrimary] at hv
  unfold mergeDuplicates
  rw [hp]
  simp only [mergedPrimary, if_pos hv]

theorem findById_deleteMany_of_mem {s : Store} {ids : List Nat} {i : Nat}
    (h : i ∈ ids) : findById (deleteMany s ids) i = none := by
  rw [findById, List.find?_eq_none]
  intro l hl
  have hmem := (List.mem_filter.mp hl).2
  simp only [Bool.not_eq_true', List.contains_eq_any_beq, List.any_eq_true,
    Bool.not_eq_true] at hmem
  intro hbeq
  have : l.id = i := by simpa using hbeq
  subst this
  rw [List.any_eq_false] at hmem
  have := hmem l.id h
  simp at this

theorem findById_updateById {s : Store} {i : Nat} {l' : Lead}
    (hsome : (findById s i).isSome) (hid : l'.id = i) :
    findById (updateById s i l') i = some l' := by
  induction s with
  | nil => simp [findById] at hsome
  | cons a s ih =>
      by_cases hai : a.id = i
      · have hbeq : (a.id == i) = true := by simp [hai]
        simp only [updateById, List.map_cons, hbeq, if_true]
        exact List.find?_cons_of_pos _ (by simp [hid])
      · have hbeq : (a.id == i) = false := by simp [hai]
        have hsome' : (findById s i).isSome := by
          rw [findById] at hsome
          rwa [List.find?_cons_of_neg _ (by simp [hai])] at hsome
        simp only [updateById, List.map_cons, hbeq, if_false]
        rw [findById, List.find?_cons_of_neg _ (by simp [hai])]
        exact ih hsome'

theorem findById_deleteMany_not_mem {s : Store} {ids : List Nat} {i : Nat}
    (hni : i ∉ ids) : findById (deleteMany s ids) i = findById s i := by
  induction s with
  | nil => rfl
  | cons a s ih =>
      by_cases hai : a.id = i
      · have hkeep : (!ids.contains a.id) = true := by
          subst hai
          simpa using hni
        simp only [deleteMany, List.filter_cons, hkeep, if_true]
        rw [findById, List.find?_cons_of_pos _ (by simp [hai]),
          findById, List.find?_cons_of_pos _ (by simp [hai])]
      · have hrhs : findById (a :: s) i = findById s i := by
          rw [findById, List.find?_cons_of_neg _ (by simp [hai])]
          rfl
        rw [hrhs]
        rcases hc : (!ids.contains a.id) with _ | _
        · simpa only [deleteMany, List.filter_cons, hc, if_false] using ih
        · simp only [deleteMany, List.filter_cons, hc, if_true]
          rw [findById, List.find?_cons_of_neg _ (by simp [hai])]
          exact ih

theorem findById_update_delete {s : Store} {i : Nat} {l' : Lead} {ids : List Nat}
    (hsome : (findById s i).isSome) (hid : l'.id = i) (hnot : i ∉ ids) :
    findById (deleteMany (updateById s i l') ids) i = some l' := by
  rw [findById_deleteMany_not_mem hnot]
  exact findById_updateById hsome hid

/-- A `duplicateIds` entry that does not resolve contributes nothing to the
fold. -/
theorem resolvedDups_skip {s : Store} {b : Nat} (pre post : List Nat)
    (hb : findById s b = none) :
    resolvedDups s (pre ++ b :: post) = resolvedDups s (pre ++ post) := by
  simp [resolvedDups, List.filterMap_append, List.filterMap_cons, hb]

/-- Deleting an id that appears on no stored document is a no-op already at
the level of the surviving-filter predicate. -/
theorem deleteMany_skip {s : Store} {b : Nat} (pre post : List Nat)
    (hb : ∀ l ∈ s, l.id ≠ b) :
    deleteMany s (pre ++ b :: post) = deleteMany s (pre ++ post) := by
  unfold deleteMany
  refine List.filter_congr ?_
  intro l hl
  have hlb : l.id ≠ b := hb l hl
  simp [List.mem_append, hlb]

theorem length_insertLead (le : Lead → Lead → Bool) (x : Lead) (l : List Lead) :
    (insertLead le x l).length = l.length + 1 := by
  induction l with
  | nil => rfl
  | cons y ys ih =>
      rw [insertLead]
      split
      · simp
      · simp [ih]

theorem length_sortLeads (le : Lead → Lead → Bool) (l : List Lead) :
    (sortLeads le l).length = l.length := by
  induction l with
  | nil => rfl
  | cons x xs ih => rw [sortLeads, length_insertLead, ih, List.length_cons]

theorem effLimit_pos (q : LeadQuery) : 1 ≤ effLimit q := by
  rcases hq : q.limit with _ | n <;> simp only [effLimit, hq]
  · omega
  · split <;> omega

/-- `(t + L - 1) / L` is the rational ceiling of `t / L`: the natural-number
formula `Math.ceil(total / limit)` compiles to. -/
theorem add_pred_div_eq_ceil {t L : Nat} (hL : 0 < L) :
    (t + L - 1) / L = ⌈(t : ℚ) / (L : ℚ)⌉₊ := by
  have hLQ : (0 : ℚ) < (L : ℚ) := by exact_mod_cast hL
  have hup : t ≤ L * ((t + L - 1) / L) := by
    have h := le_smul_ceilDiv (α := ℕ) (b := t) hL
    simpa [Nat.ceilDiv_eq_add_pred_div, smul_eq_mul] using h
  refine le_antisymm ?_ ?_
  · have hceil : (t : ℚ) / (L : ℚ) ≤ (⌈(t : ℚ) / (L : ℚ)⌉₊ : ℚ) := Nat.le_ceil _
    have ht : (t : ℚ) ≤ (⌈(t : ℚ) / (L : ℚ)⌉₊ : ℚ) * (L : ℚ) := by
      rwa [div_le_iff₀ hLQ] at hceil
    have htn : t ≤ L * ⌈(t : ℚ) / (L : ℚ)⌉₊ := by
      rw [Nat.mul_comm]
      exact_mod_cast ht
    have h2 := (ceilDiv_le_iff_le_smul (α := ℕ) (b := t)
      (c := ⌈(t : ℚ) / (L : ℚ)⌉₊) hL).mpr (by simpa [smul_eq_mul] using htn)
    simpa [Nat.ceilDiv_eq_add_pred_div] using h2
  · refine Nat.ceil_le.mpr ?_
    rw [div_le_iff₀ hLQ, mul_comm]
    exact_mod_cast hup

theorem drop_of_ge_length {l : List Lead} {n : Nat} (h : l.length ≤ n) :
    l.drop n = [] :=
  List.drop_eq_nil_of_le h

/-- Page size of the computed list payload: the requested window clipped to
the matching records that remain after the skip. -/
theorem buildLeadsResult_leads_length (s : Store) (q : LeadQuery) :
    (buildLeadsResult s q).leads.length
      = min (effLimit q)
          ((s.filter (matchesFilter q)).length - (effPage q - 1) * effLimit q) := by
  show (((sortLeads (leadLe (q.sort.getD "createdAt") (q.order == some "asc"))
      (s.filter (matchesFilter q))).drop
        ((effPage q - 1) * effLimit q)).take (effLimit q)).length = _
  rw [List.length_take, List.length_drop, length_sortLeads]

/-- Folding `max` is invariant under permutation of the folded list. -/
theorem foldl_max_perm {l₁ l₂ : List Nat} (h : List.Perm l₁ l₂) (a : Nat) :
    l₁.foldl max a = l₂.foldl max a := by
  induction h generalizing a with
  | nil => rfl
  | cons x h ih => simp only [List.foldl_cons]; exact ih _
  | swap x y l =>
      simp only [List.foldl_cons]
      have hxy : max (max a y) x = max (max a x) y := by omega
      rw [hxy]
  | trans h₁ h₂ ih₁ ih₂ => rw [ih₁, ih₂]

/-! ## Claim theorems -/

/-- C1.  The claim says the list cache key is a deterministic function of the
full normalized (filters, sort, page, limit) tuple, so that two list calls
with the same page and limit but different filters never share a cache key
and a hit always returns a payload computed for the requested filters.  The
code computes `` `${CACHE_KEYS.LEADS_LIST}:${page}:${limit}` `` — filters and
sort never enter the key — so a `stage=Won` query and a `stage=Lost` query
share the key `leads:list:1:10`, and the second call is served the first
call's cached payload, which differs from the payload its own filters
compute. -/
theorem claim1_cache_key_ignores_filters :
    leadsCacheKey { stage := some "Won" } = leadsCacheKey { stage := some "Lost" } ∧
    ({ stage := some "Won" } : LeadQuery) ≠ { stage := some "Lost" } ∧
    (getLeads c1Store ((getLeads c1Store [] { stage := some "Won" }).2)
        { stage := some "Lost" }).1
      = buildLeadsResult c1Store { stage := some "Won" } ∧
    buildLeadsResult c1Store { stage := some "Won" }
      ≠ buildLeadsResult c1Store { stage := some "Lost" } := by
  decide

/-- C5.  The claim says the service-level `findDuplicates` (which takes no
candidate) scans the full collection with self-compare and returns the
records that collide on email, phone, or (name, company).  The service
invokes the model static `Lead.findDuplicates()` with no argument, so the
static's parameter is `undefined` and `lead.email` throws a `TypeError`
before any query runs: the call errors on every store instead of returning
the colliding records. -/
theorem claim5_service_findDuplicates_throws (s : Store) :
    leadServiceFindDuplicates s = .error CrmError.typeError := rfl

/-- C6.  The claim says probability always equals the fixed stage table's
value after creates and stage-changing updates: stage New ⇒ 20, update to
Won ⇒ 100.  In the code `calculateProbability` looks stages up in a table
keyed by the lowercase `LEAD_STAGES` values while every schema-valid stage is
capitalized, so the lookup always misses and returns the fallback 20 — in
particular `calculateProbability "Won" = 20`, not 100; and on create the
`pre('save')` hook then overwrites the probability from a second, different
table (`New ⇒ 10`).  Creating the spec's example lead ends with probability
10 (claim: 20), and updating it to stage Won without an explicit probability
ends with probability 20 (claim: 100). -/
theorem claim6_stage_probability_tables_mismatch :
    calculateProbability "New" = 20 ∧
    calculateProbability "Won" = 20 ∧
    (createLead [] 1 c6Input 0).toOption.map (fun r => r.1.probability) = some 10 ∧
    (match createLead [] 1 c6Input 0 with
      | .ok (_, s1) =>
          (updateLead s1 1 { stage := some "Won" }).toOption.map
            (fun r => r.1.probability)
      | .error _ => (none : Option Nat)) = some 20 := by
  decide

/-- C2, counterexample.  The claim asserts that a successful merge never
deletes the primary record even when `primaryId` itself appears in
`duplicateIds`.  But `deleteMany({_id: {$in: duplicateIds}})` deletes every
listed id unconditionally: merging lead 1 into itself succeeds and afterwards
`findById 1` no longer resolves. -/
theorem claim2_counterexample :
    (mergeDuplicates [soloLead] 1 [1]).toOption.map (fun r => findById r.2 1)
      = some none := by
  decide

/-- C2, amended: provided `primaryId` does not appear in `duplicateIds`, a
successful merge keeps the primary resolvable and every id listed in
`duplicateIds` ceases to resolve. -/
theorem claim2_merge_deletes_duplicates_not_primary (s : Store) (pid : Nat)
    (dups : List Nat) {p : Lead} (hwf : WellFormedStore s)
    (hp : findById s pid = some p) (hnot : pid ∉ dups) :
    (mergeDuplicates s pid dups).toOption.map (fun r => (findById r.2 pid).isSome)
      = some true ∧
    ∀ d ∈ dups,
      (mergeDuplicates s pid dups).toOption.map (fun r => findById r.2 d)
        = some none := by
  rw [mergeDuplicates_ok dups hwf hp]
  constructor
  · have hid : (mergedPrimary s p dups).id = pid := by
      rw [mergedPrimary, preSaveHook_id, foldDuplicates_id, findById_id hp]
    have hsome : (findById s pid).isSome := by rw [hp]; rfl
    have h2 := findById_update_delete hsome hid hnot
    simp [Except.toOption, h2]
  · intro d hd
    simp [Except.toOption, findById_deleteMany_of_mem hd]

/-- C2, witness: the amended theorem applied to a concrete two-lead store. -/
theorem claim2_witness :
    (mergeDuplicates pairStore 1 [2]).toOption.map (fun r => (findById r.2 1).isSome)
      = some true ∧
    (mergeDuplicates pairStore 1 [2]).toOption.map (fun r => findById r.2 2)
      = some none := by
  have h := claim2_merge_deletes_duplicates_not_primary pairStore 1 [2]
    (show WellFormedStore pairStore by decide)
    (show findById pairStore 1 = some soloLead by decide) (by decide)
  exact ⟨h.1, h.2 2 (by decide)⟩

/-- C3, counterexample.  The claim asserts the merged record's probability
equals the maximum of the primary's and the duplicates' probabilities.  In
the code the fold does keep the maximum in memory, but `primary.save()` runs
the `pre('save')` hook, which overwrites the probability from the schema's
stage table: with primary (stage New, amount 50, probability 50) and
duplicate (amount 80, probability 80) the merge returns amount 80 but
probability 10 — the hook's New value — not the maximum 80. -/
theorem claim3_counterexample :
    (mergeDuplicates c3Store 1 [2]).toOption.map
        (fun r => (r.1.amount, r.1.probability))
      = some (80, 10) ∧ (10 : Nat) ≠ max c3Primary.probability c3Dup.probability := by
  decide

/-- C3, amended: the merged record's amount is the maximum over the primary's
prior value and all resolving duplicates' values (ties keep the primary's
value, and the result is invariant under permuting the duplicates); the
probability is folded to the maximum the same way, but the pre-save hook then
replaces it with the schema stage table's value for the primary's stage
whenever that value is nonzero, so the folded maximum only survives when the
table value is zero (stage Lost). -/
theorem claim3_merge_amount_max_probability_hooked (s : Store) (pid : Nat)
    (dups : List Nat) {p : Lead} (hwf : WellFormedStore s)
    (hp : findById s pid = some p) :
    (mergeDuplicates s pid dups).toOption.map (fun r => r.1.amount)
      = some (((resolvedDups s dups).map Lead.amount).foldl max p.amount) ∧
    (∀ dups₂, List.Perm (resolvedDups s dups₂) (resolvedDups s dups) →
      (mergeDuplicates s pid dups₂).toOption.map (fun r => r.1.amount)
        = (mergeDuplicates s pid dups).toOption.map (fun r => r.1.amount)) ∧
    (mergeDuplicates s pid dups).toOption.map (fun r => r.1.probability)
      = some (match schemaStageProb p.stage with
          | some v =>
              if v = 0
              then ((resolvedDups s dups).map Lead.probability).foldl max p.probability
              else v
          | none =>
              ((resolvedDups s dups).map Lead.probability).foldl max p.probability) := by
  have hamount : ∀ ds : List Nat,
      (mergeDuplicates s pid ds).toOption.map (fun r => r.1.amount)
        = some (((resolvedDups s ds).map Lead.amount).foldl max p.amount) := by
    intro ds
    rw [mergeDuplicates_ok ds hwf hp]
    simp [Except.toOption, mergedPrimary, preSaveHook_amount, foldDuplicates_amount]
  refine ⟨hamount dups, ?_, ?_⟩
  · intro dups₂ hperm
    rw [hamount dups₂, hamount dups]
    rw [foldl_max_perm (hperm.map Lead.amount) p.amount]
  · rw [mergeDuplicates_ok dups hwf hp]
    have hstage : (foldDuplicates p (resolvedDups s dups)).stage = p.stage :=
      foldDuplicates_stage _ _
    show some ((preSaveHook (foldDuplicates p (resolvedDups s dups))).probability) = _
    rw [preSaveHook_probability]
    simp only [hstage, foldDuplicates_probability]

/-- C3, witness: the amended theorem applied to the concrete scenario of the
counterexample. -/
theorem claim3_witness :
    (mergeDuplicates c3Store 1 [2]).toOption.map (fun r => r.1.amount) = some 80 ∧
    (mergeDuplicates c3Store 1 [2]).toOption.map (fun r => r.1.probability)
      = some 10 := by
  have h := claim3_merge_amount_max_probability_hooked c3Store 1 [2]
    (by decide) (show findById c3Store 1 = some c3Primary by decide)
  refine ⟨?_, ?_⟩
  · rw [h.1]; decide
  · rw [h.2.2]; decide

/-- C4, counterexample.  The claim asserts that among duplicates a
later-processed duplicate's customFields value wins over an earlier-processed
one's for keys the primary lacks.  The fold computes
`{...duplicate.customFields, ...primary.customFields}`, so after the first
duplicate its keys already live on the primary and beat every later
duplicate: with primary `{a:"1"}`, first duplicate `{a:"2", b:"3"}`, second
duplicate `{b:"9"}`, the merged key `b` maps to `"3"` (earlier duplicate),
not `"9"` (later duplicate); key `a` keeps the primary's `"1"`. -/
theorem claim4_counterexample :
    (mergeDuplicates c4Store 1 [2, 3]).toOption.map
        (fun r => (List.lookup "a" r.1.customFields, List.lookup "b" r.1.customFields))
      = some (some "1", some "3") ∧
    (some "3" : Option String) ≠ List.lookup "b" cfDup2.customFields := by
  decide

/-- C4, amended: the merged customFields keep every primary key with the
primary's original value, and each key the primary lacks takes the value of
the **earliest-processed** resolving duplicate that carries it (the
earlier-processed duplicate's value wins over the later-processed one's). -/
theorem claim4_customFields_primary_then_earliest (s : Store) (pid : Nat)
    (dups : List Nat) {p : Lead} (hwf : WellFormedStore s)
    (hp : findById s pid = some p) (k : String) :
    (mergeDuplicates s pid dups).toOption.map
        (fun r => List.lookup k r.1.customFields)
      = some ((List.lookup k p.customFields).orElse
          (fun _ => (resolvedDups s dups).findSome?
            (fun d => List.lookup k d.customFields))) := by
  rw [mergeDuplicates_ok dups hwf hp]
  show some (List.lookup k
      ((preSaveHook (foldDuplicates p (resolvedDups s dups))).customFields)) = _
  rw [preSaveHook_customFields, lookup_foldDuplicates_customFields]

/-- C4, witness: the amended theorem applied to the counterexample store, at
a key the primary has and at one it lacks. -/
theorem claim4_witness :
    (mergeDuplicates c4Store 1 [2, 3]).toOption.map
        (fun r => List.lookup "a" r.1.customFields) = some (some "1") ∧
    (mergeDuplicates c4Store 1 [2, 3]).toOption.map
        (fun r => List.lookup "b" r.1.customFields) = some (some "3") := by
  constructor
  · rw [claim4_customFields_primary_then_earliest c4Store 1 [2, 3] (by decide)
      (show findById c4Store 1 = some cfPrimary by decide) "a"]
    decide
  · rw [claim4_customFields_primary_then_earliest c4Store 1 [2, 3] (by decide)
      (show findById c4Store 1 = some cfPrimary by decide) "b"]
    decide

/-- C10, counterexample.  The claim asserts the merged tags list never
contains duplicate entries.  When no entry of `duplicateIds` resolves the
fold body never runs and the primary's tag list is returned untouched, so a
primary whose stored tags already contain a repeat — reachable, since create
and update accept tag lists verbatim — survives the merge with the repeat
intact. -/
theorem claim10_counterexample :
    (mergeDuplicates [dupTagLead] 1 []).toOption.map
        (fun r => r.1.tags) = some ["x", "x"] ∧
    ¬ (["x", "x"] : List String).Nodup := by
  decide

/-- C10, amended: the merged tags are exactly the set union of the primary's
and all resolving duplicates' tags, the resulting set is invariant under
permuting the duplicates, and the list is additionally free of duplicate
entries whenever at least one duplicate resolves (with no resolving
duplicate the primary's tag list is returned untouched). -/
theorem claim10_tags_union (s : Store) (pid : Nat) (dups : List Nat) {p : Lead}
    (hwf : WellFormedStore s) (hp : findById s pid = some p) :
    (∀ t, (mergeDuplicates s pid dups).toOption.map
        (fun r => decide (t ∈ r.1.tags))
      = some (decide (t ∈ p.tags ∨ ∃ d ∈ resolvedDups s dups, t ∈ d.tags))) ∧
    (resolvedDups s dups ≠ [] →
      (mergeDuplicates s pid dups).toOption.map (fun r => decide r.1.tags.Nodup)
        = some true) ∧
    (∀ dups₂, List.Perm (resolvedDups s dups₂) (resolvedDups s dups) →
      ∀ t, (mergeDuplicates s pid dups₂).toOption.map
          (fun r => decide (t ∈ r.1.tags))
        = (mergeDuplicates s pid dups).toOption.map
          (fun r => decide (t ∈ r.1.tags))) := by
  have hmem : ∀ ds : List Nat, ∀ t : String,
      (mergeDuplicates s pid ds).toOption.map (fun r => decide (t ∈ r.1.tags))
        = some (decide (t ∈ p.tags ∨ ∃ d ∈ resolvedDups s ds, t ∈ d.tags)) := by
    intro ds t
    rw [mergeDuplicates_ok ds hwf hp]
    show some (decide (t ∈ (preSaveHook (foldDuplicates p (resolvedDups s ds))).tags))
      = _
    rw [preSaveHook_tags]
    congr 1
    exact decide_eq_decide.mpr (mem_tags_foldDuplicates t p (resolvedDups s ds))
  refine ⟨hmem dups, ?_, ?_⟩
  · intro hne
    rcases hds : resolvedDups s dups with _ | ⟨d, ds⟩
    · exact absurd hds hne
    · rw [mergeDuplicates_ok dups hwf hp]
      show some (decide
          ((preSaveHook (foldDuplicates p (resolvedDups s dups))).tags.Nodup)) = _
      rw [preSaveHook_tags, hds]
      simp [nodup_tags_foldDuplicates_cons]
  · intro dups₂ hperm t
    rw [hmem dups₂ t, hmem dups t]
    congr 1
    apply decide_eq_decide.mpr
    constructor
    · rintro (h | ⟨d, hd, ht⟩)
      · exact Or.inl h
      · exact Or.inr ⟨d, hperm.mem_iff.mp hd, ht⟩
    · rintro (h | ⟨d, hd, ht⟩)
      · exact Or.inl h
      · exact Or.inr ⟨d, hperm.mem_iff.mpr hd, ht⟩

/-- C10, witness: the amended theorem applied to the spec's example — primary
tags `{x, y}`, duplicate tags `{y, z}`. -/
theorem claim10_witness :
    (mergeDuplicates tagStore 1 [2]).toOption.map
        (fun r => decide ("z" ∈ r.1.tags)) = some true ∧
    (mergeDuplicates tagStore 1 [2]).toOption.map
        (fun r => decide r.1.tags.Nodup) = some true := by
  have h := claim10_tags_union tagStore 1 [2] (by decide)
    (show findById tagStore 1 = some tagPrimary by decide)
  refine ⟨?_, h.2.1 (by decide)⟩
  rw [h.1 "z"]
  decide

/-- C7.  The claim: `mergeDuplicates` fails with NotFound exactly when the
primary id does not resolve; that failure precedes every store write (all the
`findById` reads run first and the 404 is thrown before `save`/`deleteMany`,
as the definition of `mergeDuplicates` mirrors); and a `duplicateIds` entry
that does not resolve is silently skipped — it neither fails the merge nor
changes its outcome. -/
theorem claim7_merge_notFound_iff (s : Store) (pid b : Nat)
    (dups pre post : List Nat) (hwf : WellFormedStore s)
    (hb : findById s b = none) :
    ((mergeDuplicates s pid dups).toOption.isSome ↔ (findById s pid).isSome) ∧
    (mergeDuplicates s pid dups = .error CrmError.notFound
      ↔ findById s pid = none) ∧
    mergeDuplicates s pid (pre ++ b :: post) = mergeDuplicates s pid (pre ++ post) := by
  rcases hp : findById s pid with _ | p
  · refine ⟨?_, ?_, ?_⟩
    · unfold mergeDuplicates
      rw [hp]
      simp [Except.toOption]
    · unfold mergeDuplicates
      rw [hp]
      simp
    · unfold mergeDuplicates
      rw [hp]
  · have hpidb : pid ≠ b := by
      intro h
      rw [h, hb] at hp
      exact Option.noConfusion hp
    refine ⟨?_, ?_, ?_⟩
    · rw [mergeDuplicates_ok dups hwf hp]
      simp [Except.toOption]
    · rw [mergeDuplicates_ok dups hwf hp]
      simp
    · have hres : resolvedDups s (pre ++ b :: post) = resolvedDups s (pre ++ post) :=
        resolvedDups_skip pre post hb
      have hmp : mergedPrimary s p (pre ++ b :: post) = mergedPrimary s p (pre ++ post) := by
        rw [mergedPrimary, mergedPrimary, hres]
      have hsid : ∀ l ∈ s, l.id ≠ b := by
        intro l hl hid
        have := List.find?_eq_none.mp hb l hl
        simp [hid] at this
      have hids : ∀ l ∈ updateById s pid (mergedPrimary s p (pre ++ post)),
          l.id ≠ b := by
        intro l hl
        rcases List.mem_map.mp hl with ⟨a, ha, rfl⟩
        by_cases hcase : (a.id == pid) = true
        · simp only [hcase, if_true]
          rw [mergedPrimary, preSaveHook_id, foldDuplicates_id, findById_id hp]
          exact hpidb
        · simp only [hcase, if_false]
          exact hsid a ha
      rw [mergeDuplicates_ok (pre ++ b :: post) hwf hp,
        mergeDuplicates_ok (pre ++ post) hwf hp, hmp,
        deleteMany_skip pre post hids]

/-- C7, witness: the theorem at a concrete two-lead store with the
non-resolving duplicate id 99. -/
theorem claim7_witness :
    ((mergeDuplicates pairStore 1 [2]).toOption.isSome
      ↔ (findById pairStore 1).isSome) ∧
    (mergeDuplicates pairStore 1 [2] = .error CrmError.notFound
      ↔ findById pairStore 1 = none) ∧
    mergeDuplicates pairStore 1 ([] ++ 99 :: [2])
      = mergeDuplicates pairStore 1 ([] ++ [2]) :=
  claim7_merge_notFound_iff pairStore 1 99 [2] [] [2] (by decide) (by decide)

/-- C8.  The claim: every list query's `total` counts the records matching
the filter ignoring paging, `totalPages = ceil(total / limit)`, the number of
items on a page is `limit` until the matching records run out, and a page
beyond the data yields an empty `items` array (not an error) while `total`
and `totalPages` — which do not depend on the page at all — stay correct.
Stated of the cache-miss computation `buildLeadsResult`, which is the payload
`getLeads` assembles and caches. -/
theorem claim8_pagination_spec (s : Store) (q : LeadQuery) :
    (buildLeadsResult s q).total = (s.filter (matchesFilter q)).length ∧
    (buildLeadsResult s q).totalPages
      = ⌈((s.filter (matchesFilter q)).length : ℚ) / ((effLimit q : Nat) : ℚ)⌉₊ ∧
    (buildLeadsResult s q).leads.length
      = min (effLimit q)
          ((s.filter (matchesFilter q)).length - (effPage q - 1) * effLimit q) ∧
    ((s.filter (matchesFilter q)).length ≤ (effPage q - 1) * effLimit q →
      (buildLeadsResult s q).leads = []) := by
  refine ⟨rfl, ?_, ?_, ?_⟩
  · show ((s.filter (matchesFilter q)).length + effLimit q - 1) / effLimit q = _
    exact add_pred_div_eq_ceil (effLimit_pos q)
  · exact buildLeadsResult_leads_length s q
  · intro h
    show ((sortLeads (leadLe (q.sort.getD "createdAt") (q.order == some "asc"))
        (s.filter (matchesFilter q))).drop
          ((effPage q - 1) * effLimit q)).take (effLimit q) = []
    rw [drop_of_ge_length (by rw [length_sortLeads]; exact h), List.take_nil]

set_option maxRecDepth 8000 in
/-- C8, witness: a store of 25 matching records with limit 10, page 4 —
past the data: empty items, total 25, totalPages 3. -/
theorem claim8_witness :
    (buildLeadsResult store25 { page := some 4, limit := some 10 }).leads = [] ∧
    (buildLeadsResult store25 { page := some 4, limit := some 10 }).total = 25 ∧
    (buildLeadsResult store25 { page := some 4, limit := some 10 }).totalPages
      = 3 := by
  have h := claim8_pagination_spec store25 { page := some 4, limit := some 10 }
  refine ⟨h.2.2.2 (by decide), ?_, ?_⟩
  · rw [h.1]
    decide
  · rw [h.2.1]
    have hlen : (store25.filter
        (matchesFilter { page := some 4, limit := some 10 })).length = 25 := by
      decide
    have heff : effLimit { page := some 4, limit := some 10 } = 10 := by decide
    rw [hlen, heff, ← add_pred_div_eq_ceil (show 0 < 10 by decide)]

set_option maxRecDepth 40000 in
/-- C9, counterexample.  The claim says the effective limit is silently
clamped into [1,100].  The code applies no clamp: a request with limit 500 is
served with effective limit 500, and against a 120-record store the page
carries 120 items — an out-of-bounds page size under the claim. -/
theorem claim9_counterexample :
    (buildLeadsResult store120 { limit := some 500 }).limit = 500 ∧
    ¬ ((buildLeadsResult store120 { limit := some 500 }).limit ≤ 100) ∧
    100 < (buildLeadsResult store120 { limit := some 500 }).leads.length := by
  refine ⟨rfl, by decide, ?_⟩
  rw [buildLeadsResult_leads_length]
  have hlen : (store120.filter (matchesFilter { limit := some 500 })).length
      = 120 := by
    decide
  rw [hlen]
  decide

/-- C9, amended: the effective limit is never clamped — any nonzero requested
limit is used as-is (also above 100), an absent or zero limit falls back to
the default 10, and the request is served (never rejected), with at most the
requested number of items. -/
theorem claim9_limit_not_clamped (s : Store) (q : LeadQuery) (n : Nat)
    (hq : q.limit = some n) (hn : n ≠ 0) :
    effLimit q = n ∧ (buildLeadsResult s q).limit = n ∧
    (buildLeadsResult s q).leads.length ≤ n := by
  have he : effLimit q = n := by simp [effLimit, hq, hn]
  refine ⟨he, he, ?_⟩
  show (((sortLeads (leadLe (q.sort.getD "createdAt") (q.order == some "asc"))
      (s.filter (matchesFilter q))).drop
        ((effPage q - 1) * effLimit q)).take (effLimit q)).length ≤ n
  rw [List.length_take]
  exact le_trans (min_le_left _ _) (le_of_eq he)

/-- C9, witness: the amended theorem at limit 500. -/
theorem claim9_witness :
    effLimit { limit := some 500 } = 500 ∧
    (buildLeadsResult [] { limit := some 500 }).limit = 500 ∧
    (buildLeadsResult [] { limit := some 500 }).leads.length ≤ 500 :=
  claim9_limit_not_clamped [] { limit := some 500 } 500 rfl (by decide)

end BintechCrm
